import Mathlib

/-!
Verification of the ranked.vote report pipeline against its specification.

The Rust sources under `report_pipeline/src` are shallowly embedded as Lean
definitions: pure functions become Lean functions, loops over mutable state
become folds with explicit state passing, machine integers (`u32`) become
`Nat` (with explicit remarks where overflow could matter), fallible
operations return `Option`.

Modules of the repository that are not available under `src/`
(`model/election.rs`, `formats/common.rs`, `model/metadata.rs`,
`formats/nist_sp_1500/model.rs`) are modelled from the specification; the
doc comment of each such definition starts with `Modelled from the spec:`.
-/

/-! ## Ballot model (§3 of the spec) -/

/-- Modelled from the spec: `CandidateId` (`model/election.rs`, not under
`src/`) — an opaque dense nonnegative integer identifying a candidate
within one contest's internal space. -/
structure CandidateId where
  id : Nat
deriving DecidableEq, Repr

/-- Modelled from the spec: `CandidateType` (`model/election.rs`, not under
`src/`) — `Regular | WriteIn | QualifiedWriteIn`. The external NIST
`candidate_type` in `model.rs` has the same three variants and is mapped
one-to-one by `get_candidates`, so a single type is used for both. -/
inductive CandidateType where
  | Regular
  | WriteIn
  | QualifiedWriteIn
deriving DecidableEq, Repr

/-- Modelled from the spec: `Candidate` (`model/election.rs`, not under
`src/`) — `{ name, type }` where `name` went through the name
normalizer. -/
structure Candidate where
  name : String
  type : CandidateType
deriving DecidableEq, Repr

/-- Modelled from the spec: `Choice` (`model/election.rs`, not under
`src/`) — one rank position of a ballot:
`Vote(CandidateId) | Undervote | Overvote`. -/
inductive Choice where
  | Vote (c : CandidateId)
  | Undervote
  | Overvote
deriving DecidableEq, Repr

/-- Modelled from the spec: `Ballot` (`model/election.rs`, not under
`src/`) — `{ id, choices }`, `choices` in rank order. -/
structure Ballot where
  id : String
  choices : List Choice
deriving DecidableEq, Repr

/-- Modelled from the spec: `Election` (`model/election.rs`, not under
`src/`) — candidates indexed by `CandidateId` plus the ballots. -/
structure Election where
  candidates : List Candidate
  ballots : List Ballot
deriving DecidableEq, Repr

/-- Modelled from the spec: `NormalizedBallot` (`model/election.rs`, not
under `src/`) — `{ id, choices : CandidateId sequence, overvoted }`. -/
structure NormalizedBallot where
  id : String
  choices : List CandidateId
  overvoted : Bool
deriving DecidableEq, Repr

/-- Modelled from the spec: `NormalizedElection` (`model/election.rs`, not
under `src/`). -/
structure NormalizedElection where
  candidates : List Candidate
  ballots : List NormalizedBallot
deriving DecidableEq, Repr

/-! ## CandidateMap (§3, §4.B; `formats/common.rs` is not under `src/`) -/

/-- Modelled from the spec: `CandidateMap<K>` (`formats/common.rs`, not
under `src/`) — bidirectional map between external keys and dense internal
`CandidateId`s.  Invariant per spec: `CandidateId` equals insertion index,
so the map is represented as the insertion-ordered list of
`(external key, Candidate)` pairs. -/
structure CandidateMap (K : Type) where
  entries : List (K × Candidate)
deriving DecidableEq, Repr

/-- Index of the first entry with the given external key. -/
def keyIndex {K : Type} [DecidableEq K] (k : K) : List (K × Candidate) → Option Nat
  | [] => none
  | (k', _) :: rest =>
    if k' = k then some 0 else (keyIndex k rest).map (· + 1)

namespace CandidateMap

def empty {K : Type} : CandidateMap K := ⟨[]⟩

/-- Modelled from the spec: `add(K, Candidate) → CandidateId` — insert if
absent (idempotent on `K`), `CandidateId` equals insertion index. Returns
the id and the updated map. -/
def add {K : Type} [DecidableEq K] (m : CandidateMap K) (k : K) (c : Candidate) :
    CandidateId × CandidateMap K :=
  match keyIndex k m.entries with
  | some i => (⟨i⟩, m)
  | none => (⟨m.entries.length⟩, ⟨m.entries ++ [(k, c)]⟩)

/-- Modelled from the spec: `id_to_choice(K) → Choice` — `Vote(id)` for a
known key.  For an unknown key the spec leaves the behavior to the
implementer (`panic` or `Undervote`; adapters never pass unknown keys);
modelled as `Undervote`. -/
def id_to_choice {K : Type} [DecidableEq K] (m : CandidateMap K) (k : K) : Choice :=
  match keyIndex k m.entries with
  | some i => Choice.Vote ⟨i⟩
  | none => Choice.Undervote

/-- Modelled from the spec: `add_id_to_choice(K, Candidate) → Choice` —
insert-if-absent and return `Vote(id)` (§4.B). -/
def add_id_to_choice {K : Type} [DecidableEq K] (m : CandidateMap K) (k : K) (c : Candidate) :
    Choice × CandidateMap K :=
  let r := m.add k c
  (Choice.Vote r.1, r.2)

/-- Modelled from the spec: `into_vec() → sequence<Candidate>` ordered by
`CandidateId`. -/
def into_vec {K : Type} (m : CandidateMap K) : List Candidate :=
  m.entries.map (·.2)

end CandidateMap

/-! ## Name normalizer (§4.C; `formats/common.rs` is not under `src/`) -/

/-- Collapse runs of spaces to a single space (helper for the modelled
name normalizer). -/
def squeezeSpaces (l : List Char) : List Char :=
  l.foldr (fun c acc => if c = ' ' ∧ acc.head? = some ' ' then acc else c :: acc) []

/-- Modelled from the spec: `normalize_name` (`formats/common.rs`, not
under `src/`).  §4.C: deterministic and idempotent; trims whitespace and
collapses internal whitespace.  The exact casing rules are policy and left
unspecified by the spec, so characters are kept as written.  The
`aggressive` flag selects a policy variant; both variants are modelled the
same way. -/
def normalize_name (s : String) (_aggressive : Bool) : String :=
  let ws := (s.data.map (fun c => if c.isWhitespace then ' ' else c))
  let sq := squeezeSpaces ws
  ⟨((sq.dropWhile (· = ' ')).reverse.dropWhile (· = ' ')).reverse⟩

/-! ## nyc normalizer (`normalizers/nyc.rs`) -/

/-- The loop body of `nyc_normalizer` (`normalizers/nyc.rs` lines 13–28):
walks the choices left to right carrying the `seen` set (the `BTreeSet` is
modelled as the list of inserted ids; only membership is used), the
accumulated `new_choices`, the `overvoted` flag and the `has_valid_votes`
flag; `Overvote` breaks out of the loop. Returns
`(new_choices, overvoted, has_valid_votes)`. -/
def nycLoop : List Choice → List CandidateId → List CandidateId → Bool → Bool →
    List CandidateId × Bool × Bool
  | [], _, newChoices, overvoted, hasValid => (newChoices, overvoted, hasValid)
  | Choice.Vote v :: rest, seen, newChoices, overvoted, hasValid =>
    if v ∈ seen then nycLoop rest seen newChoices overvoted hasValid
    else nycLoop rest (v :: seen) (newChoices ++ [v]) overvoted true
  | Choice.Overvote :: _, _, newChoices, _, hasValid => (newChoices, true, hasValid)
  | Choice.Undervote :: rest, seen, newChoices, overvoted, hasValid =>
    nycLoop rest seen newChoices overvoted hasValid

/-- `nyc_normalizer` (`normalizers/nyc.rs` lines 4–36): returns a
normalized ballot only when the walk saw at least one valid vote. -/
def nyc_normalizer (ballot : Ballot) : Option NormalizedBallot :=
  let r := nycLoop ballot.choices [] [] false false
  if r.2.2 then some ⟨ballot.id, r.1, r.2.1⟩ else none

/-- The normalizer dispatch for the optional (`nyc`) family:
`normalize_election` (`normalizers/mod.rs` lines 25–48) with
`format = "nyc"` filter-maps `nyc_normalizer` over the ballots. -/
def normalize_election_nyc (election : Election) : NormalizedElection :=
  { candidates := election.candidates
    ballots := election.ballots.filterMap nyc_normalizer }

/-- Modelled from the spec: `simple_normalizer` (`normalizers/simple.rs`,
not under `src/`). §4.E: walk `choices` left-to-right keeping an ordered
set of already-seen ids; emit each new vote in order; skip undervotes; on
`Overvote` set `overvoted = true` and stop; always emits one output ballot
per input (id preserved).  The walk is the same loop as the one shared
with the nyc policy ("nyc: same logic as simple" per §4.E), without the
drop. -/
def simple_normalizer (ballot : Ballot) : NormalizedBallot :=
  let r := nycLoop ballot.choices [] [] false false
  ⟨ballot.id, r.1, r.2.1⟩

/-- Does the choice list contain a `Vote` strictly before the first
`Overvote`?  (`nyc_normalizer` keeps a ballot exactly when this holds:
the spec calls the complement "pure undervotes, or an overvote as the
first non-undervote".) -/
def hasVoteBeforeOvervote : List Choice → Bool
  | [] => false
  | Choice.Vote _ :: _ => true
  | Choice.Overvote :: _ => false
  | Choice.Undervote :: rest => hasVoteBeforeOvervote rest

/-- The votes of a choice list up to (excluding) the first `Overvote`,
undervotes skipped. -/
def votesBeforeOvervote : List Choice → List CandidateId
  | [] => []
  | Choice.Vote v :: rest => v :: votesBeforeOvervote rest
  | Choice.Overvote :: _ => []
  | Choice.Undervote :: rest => votesBeforeOvervote rest

/-- First-occurrence deduplication relative to an already-seen set. -/
def eraseLaterDups (seen : List CandidateId) : List CandidateId → List CandidateId
  | [] => []
  | v :: rest =>
    if v ∈ seen then eraseLaterDups seen rest
    else v :: eraseLaterDups (v :: seen) rest

/-- Whether the walk stops with `overvoted = true`: there is an `Overvote`
and every choice before the first one is a `Vote` or `Undervote` (always
true), i.e. the list contains an `Overvote`. -/
def reachesOvervote : List Choice → Bool
  | [] => false
  | Choice.Overvote :: _ => true
  | _ :: rest => reachesOvervote rest

theorem nycLoop_hasValid_true (choices : List Choice) (seen newChoices : List CandidateId)
    (overvoted : Bool) :
    (nycLoop choices seen newChoices overvoted true).2.2 = true := by
  induction choices generalizing seen newChoices overvoted with
  | nil => rfl
  | cons c rest ih =>
    cases c with
    | Vote v =>
      by_cases h : v ∈ seen
      · simp [nycLoop, h, ih]
      · simp [nycLoop, h, ih]
    | Undervote => simp [nycLoop, ih]
    | Overvote => rfl

theorem nycLoop_hasValid (choices : List Choice) (newChoices : List CandidateId)
    (overvoted : Bool) :
    (nycLoop choices [] newChoices overvoted false).2.2 = hasVoteBeforeOvervote choices := by
  induction choices generalizing newChoices overvoted with
  | nil => rfl
  | cons c rest ih =>
    cases c with
    | Vote v => simp [nycLoop, hasVoteBeforeOvervote, nycLoop_hasValid_true]
    | Undervote => simp [nycLoop, hasVoteBeforeOvervote, ih]
    | Overvote => rfl

theorem nycLoop_choices (choices : List Choice) (seen newChoices : List CandidateId)
    (overvoted hasValid : Bool) :
    (nycLoop choices seen newChoices overvoted hasValid).1 =
      newChoices ++ eraseLaterDups seen (votesBeforeOvervote choices) := by
  induction choices generalizing seen newChoices overvoted hasValid with
  | nil => simp [nycLoop, eraseLaterDups]
  | cons c rest ih =>
    cases c with
    | Vote v =>
      by_cases h : v ∈ seen
      · simp [nycLoop, h, votesBeforeOvervote, eraseLaterDups, ih]
      · simp [nycLoop, h, votesBeforeOvervote, eraseLaterDups, ih]
    | Undervote => simp [nycLoop, votesBeforeOvervote, ih]
    | Overvote => simp [nycLoop, votesBeforeOvervote, eraseLaterDups]

theorem eraseLaterDups_not_mem_seen (l : List CandidateId) (seen : List CandidateId) :
    ∀ v ∈ eraseLaterDups seen l, v ∉ seen := by
  induction l generalizing seen with
  | nil => simp [eraseLaterDups]
  | cons x rest ih =>
    intro v hv
    simp only [eraseLaterDups] at hv
    by_cases hx : x ∈ seen
    · exact ih seen v (by simpa [hx] using hv)
    · simp only [if_neg hx, List.mem_cons] at hv
      rcases hv with rfl | hv
      · exact hx
      · have := ih (x :: seen) v hv
        intro hmem
        exact this (List.mem_cons_of_mem _ hmem)

theorem eraseLaterDups_nodup (l : List CandidateId) (seen : List CandidateId) :
    (eraseLaterDups seen l).Nodup := by
  induction l generalizing seen with
  | nil => simp [eraseLaterDups]
  | cons x rest ih =>
    by_cases hx : x ∈ seen
    · simpa [eraseLaterDups, hx] using ih seen
    · simp only [eraseLaterDups, if_neg hx]
      refine List.Nodup.cons ?_ (ih (x :: seen))
      intro hmem
      exact eraseLaterDups_not_mem_seen rest (x :: seen) x hmem (List.mem_cons_self _ _)

/-- Claim C4: `nyc_normalizer` returns `None` exactly when the ballot has
no `Vote` before its first `Overvote` (pure undervotes, or an overvote as
the first non-undervote); otherwise it returns `Some` normalized ballot
carrying the same id. -/
theorem nyc_normalizer_drop_condition (b : Ballot) :
    (nyc_normalizer b = none ↔ hasVoteBeforeOvervote b.choices = false) ∧
    (∀ nb, nyc_normalizer b = some nb → nb.id = b.id) := by
  constructor
  · simp only [nyc_normalizer]
    rw [show (nycLoop b.choices [] [] false false).2.2 = hasVoteBeforeOvervote b.choices from
      nycLoop_hasValid b.choices [] false]
    cases hasVoteBeforeOvervote b.choices <;> simp
  · intro nb h
    simp only [nyc_normalizer] at h
    by_cases hv : (nycLoop b.choices [] [] false false).2.2
    · simp only [hv, if_true] at h
      cases h
      rfl
    · simp [hv] at h

/-- Witness for C4: the pure-undervote ballot of scenario S6 is dropped,
and a ballot with a valid vote keeps its id. -/
theorem nyc_normalizer_drop_condition_witness :
    nyc_normalizer ⟨"x", [Choice.Undervote, Choice.Undervote]⟩ = none ∧
    (NormalizedBallot.mk "y" [⟨1⟩] false).id = "y" :=
  ⟨(nyc_normalizer_drop_condition ⟨"x", [Choice.Undervote, Choice.Undervote]⟩).1.mpr (by decide),
   (nyc_normalizer_drop_condition ⟨"y", [Choice.Vote ⟨1⟩]⟩).2 ⟨"y", [⟨1⟩], false⟩ (by decide)⟩

/-- Claim C7: every normalized ballot produced by a normalizer has
duplicate-free choices.  For `nyc_normalizer` (the normalizer in
`normalizers/nyc.rs`) the output choices are exactly the first occurrences
of the votes appearing before the first overvote; the spec-modelled
`simple_normalizer` produces the same walk, so its output is
duplicate-free as well. -/
theorem normalized_choices_nodup :
    (∀ b nb, nyc_normalizer b = some nb →
      nb.choices.Nodup ∧ nb.choices = eraseLaterDups [] (votesBeforeOvervote b.choices)) ∧
    (∀ b, (simple_normalizer b).choices.Nodup) := by
  constructor
  · intro b nb h
    have hch : nb.choices = eraseLaterDups [] (votesBeforeOvervote b.choices) := by
      simp only [nyc_normalizer] at h
      by_cases hv : (nycLoop b.choices [] [] false false).2.2
      · simp only [hv, if_true] at h
        cases h
        simpa using nycLoop_choices b.choices [] [] false false
      · simp [hv] at h
    exact ⟨hch ▸ eraseLaterDups_nodup _ _, hch⟩
  · intro b
    show (nycLoop b.choices [] [] false false).1.Nodup
    rw [nycLoop_choices]
    simpa using eraseLaterDups_nodup (votesBeforeOvervote b.choices) []

/-- Witness for C7: a ballot whose votes repeat, normalized by nyc, keeps
one copy of each candidate. -/
theorem normalized_choices_nodup_witness :
    (NormalizedBallot.mk "d" [⟨1⟩, ⟨2⟩] false).choices.Nodup ∧
    (NormalizedBallot.mk "d" [⟨1⟩, ⟨2⟩] false).choices =
      eraseLaterDups []
        (votesBeforeOvervote [Choice.Vote ⟨1⟩, Choice.Vote ⟨2⟩, Choice.Vote ⟨1⟩]) :=
  normalized_choices_nodup.1 ⟨"d", [Choice.Vote ⟨1⟩, Choice.Vote ⟨2⟩, Choice.Vote ⟨1⟩]⟩
    ⟨"d", [⟨1⟩, ⟨2⟩], false⟩ (by decide)

/-! ## NIST SP 1500 adapter (`formats/nist_sp_1500/mod.rs`) -/

/-- Modelled from the spec: `Mark` (`formats/nist_sp_1500/model.rs`, not
under `src/`) — `{ candidate_id: u32, rank: u32, is_ambiguous: bool }`
(§6); the further fields of `model.rs` (`party_id`, `mark_density`,
`is_vote`) are unused by the adapter and omitted. -/
structure Mark where
  candidate_id : Nat
  rank : Nat
  is_ambiguous : Bool
deriving DecidableEq, Repr

/-- Modelled from the spec: a contest-marks block of a session
(`model.rs`, not under `src/`): `{ id: u32, marks: [Mark] }` (§6). -/
structure SessionContest where
  id : Nat
  marks : List Mark
deriving DecidableEq, Repr

/-- Modelled from the spec: a session of a `CvrExport`
(`model.rs`, not under `src/`): `{ record_id, contests() }` (§6); the
`contests()` accessor is modelled as a field. -/
structure Session where
  record_id : String
  contests : List SessionContest
deriving DecidableEq, Repr

/-- Modelled from the spec: `CvrExport` (`model.rs`, not under `src/`):
`{ sessions: [Session] }` (§6). -/
structure CvrExport where
  sessions : List Session
deriving DecidableEq, Repr

/-- Modelled from the spec: one entry of `CandidateManifest.list`
(`model.rs`, not under `src/`):
`{ id: u32, description: str, contest_id: u32, candidate_type }` (§6). -/
structure ManifestCandidate where
  id : Nat
  description : String
  contest_id : Nat
  candidate_type : CandidateType
deriving DecidableEq, Repr

/-- Modelled from the spec: `CandidateManifest` (`model.rs`, not under
`src/`): `{ list: [ManifestCandidate] }` (§6). -/
structure CandidateManifest where
  list : List ManifestCandidate
deriving DecidableEq, Repr

/-- `get_candidates` (`formats/nist_sp_1500/mod.rs` lines 44–76): walks
the manifest, keeps candidates of the target contest, normalizes the
description; when `drop_unqualified_write_in` is set, a `WriteIn`
candidate is not inserted and its external id is remembered instead. -/
def get_candidates (manifest : CandidateManifest) (contest_id : Nat)
    (drop_unqualified_write_in : Bool) : CandidateMap Nat × Option Nat :=
  manifest.list.foldl
    (fun acc candidate =>
      if candidate.contest_id = contest_id then
        if drop_unqualified_write_in ∧ candidate.candidate_type = CandidateType.WriteIn then
          (acc.1, some candidate.id)
        else
          ((acc.1.add candidate.id
            ⟨normalize_name candidate.description false, candidate.candidate_type⟩).2, acc.2)
      else acc)
    (CandidateMap.empty, none)

/-- Streaming run of `itertools::group_by(|x| x.rank)`: groups maximal
runs of *consecutive* marks sharing one rank, pairing each group with its
key.  `r` is the current key and `cur` the current group in reverse. -/
def groupByRankAux (r : Nat) (cur : List Mark) : List Mark → List (Nat × List Mark)
  | [] => [(r, cur.reverse)]
  | m :: rest =>
    if m.rank = r then groupByRankAux r (m :: cur) rest
    else (r, cur.reverse) :: groupByRankAux m.rank [m] rest

/-- `contest.marks.iter().group_by(|x| x.rank)` as used by
`stream_process_cvr_file` (`mod.rs` line 115) and by the batch reader
(`mod.rs` line 437). -/
def groupByRank : List Mark → List (Nat × List Mark)
  | [] => []
  | m :: rest => groupByRankAux m.rank [m] rest

/-- The per-rank-group reduction of `stream_process_cvr_file`
(`mod.rs` lines 116–123): filter ambiguous marks, then a single mark equal
to the dropped write-in is an `Undervote`, a single other mark maps
through the candidate map, no mark is an `Undervote`, several marks are an
`Overvote`. -/
def rankGroupChoice (candidates : CandidateMap Nat) (dropped_write_in : Option Nat)
    (g : List Mark) : Choice :=
  match g.filter (fun d => !d.is_ambiguous) with
  | [v] =>
    if some v.candidate_id = dropped_write_in then Choice.Undervote
    else candidates.id_to_choice v.candidate_id
  | [] => Choice.Undervote
  | _ => Choice.Overvote

/-- The whole choices loop of `stream_process_cvr_file`
(`mod.rs` lines 114–126): one pushed `Choice` per `group_by` group. -/
def choicesOfContestMarks (marks : List Mark) (candidates : CandidateMap Nat)
    (dropped_write_in : Option Nat) : List Choice :=
  (groupByRank marks).map (fun g => rankGroupChoice candidates dropped_write_in g.2)

/-- Claim C2: in the per-rank reduction of a contest-marks block, a rank
group whose single non-ambiguous mark carries the dropped write-in's
external id contributes the choice `Undervote` at that group's position of
the emitted choice sequence (the position is kept, not removed). -/
theorem nist_dropped_write_in_is_undervote (candidates : CandidateMap Nat) (d : Nat)
    (marks : List Mark) (i : Nat) (r : Nat) (g : List Mark) (v : Mark)
    (hg : (groupByRank marks)[i]? = some (r, g))
    (hf : g.filter (fun m => !m.is_ambiguous) = [v])
    (hv : v.candidate_id = d) :
    (choicesOfContestMarks marks candidates (some d))[i]? = some Choice.Undervote := by
  unfold choicesOfContestMarks
  rw [List.getElem?_map, hg]
  simp [rankGroupChoice, hf, hv]

/-- Witness for C2 (scenario S4): candidate 99 is the dropped write-in;
marks `[{99,1,false},{10,2,false}]` reduce to `[Undervote, Vote(map[10])]`
with the undervote kept at position 0. -/
theorem nist_dropped_write_in_is_undervote_witness :
    (choicesOfContestMarks [⟨99, 1, false⟩, ⟨10, 2, false⟩]
        ⟨[(10, ⟨"Alice", CandidateType.Regular⟩)]⟩ (some 99))[0]? =
      some Choice.Undervote ∧
    choicesOfContestMarks [⟨99, 1, false⟩, ⟨10, 2, false⟩]
        ⟨[(10, ⟨"Alice", CandidateType.Regular⟩)]⟩ (some 99) =
      [Choice.Undervote, Choice.Vote ⟨0⟩] :=
  ⟨nist_dropped_write_in_is_undervote ⟨[(10, ⟨"Alice", CandidateType.Regular⟩)]⟩ 99
      [⟨99, 1, false⟩, ⟨10, 2, false⟩] 0 1 [⟨99, 1, false⟩] ⟨99, 1, false⟩
      (by decide) (by decide) (by decide),
   by decide⟩

/-- Counterexample to C3 as stated: with the non-adjacent equal-rank
ordering `[{1,1},{2,2},{3,1}]` the adapter emits three choices for only
two distinct rank values (the `group_by` of the source groups only
consecutive marks), and the group keys `[1, 2, 1]` are not ascending. -/
theorem nist_rank_grouping_counterexample :
    (choicesOfContestMarks [⟨1, 1, false⟩, ⟨2, 2, false⟩, ⟨3, 1, false⟩]
        ⟨[(1, ⟨"A", CandidateType.Regular⟩), (2, ⟨"B", CandidateType.Regular⟩),
          (3, ⟨"C", CandidateType.Regular⟩)]⟩ none).length = 3 ∧
    (([⟨1, 1, false⟩, ⟨2, 2, false⟩, ⟨3, 1, false⟩] : List Mark).map Mark.rank).eraseDups.length
      = 2 ∧
    (groupByRank [⟨1, 1, false⟩, ⟨2, 2, false⟩, ⟨3, 1, false⟩]).map Prod.fst = [1, 2, 1] ∧
    ¬ List.Chain' (· < ·)
      ((groupByRank [⟨1, 1, false⟩, ⟨2, 2, false⟩, ⟨3, 1, false⟩]).map Prod.fst) := by
  refine ⟨by decide, by decide, by decide, ?_⟩
  intro h
  rw [show (groupByRank [⟨1, 1, false⟩, ⟨2, 2, false⟩, ⟨3, 1, false⟩]).map Prod.fst
      = [1, 2, 1] from by decide] at h
  have := List.Chain'.tail h
  simp [List.chain'_cons] at this

theorem groupByRankAux_keys (rest : List Mark) :
    ∀ r cur, List.Pairwise (fun a b : Mark => a.rank ≤ b.rank) rest →
    (∀ m ∈ rest, r ≤ m.rank) →
    List.Chain' (· < ·) ((groupByRankAux r cur rest).map Prod.fst) ∧
    (∀ k ∈ (groupByRankAux r cur rest).map Prod.fst, r ≤ k) ∧
    (∀ k ∈ (groupByRankAux r cur rest).map Prod.fst,
      k = r ∨ ∃ m ∈ rest, m.rank = k) ∧
    (r ∈ (groupByRankAux r cur rest).map Prod.fst ∧
      ∀ m ∈ rest, m.rank ∈ (groupByRankAux r cur rest).map Prod.fst) := by
  induction rest with
  | nil =>
    intro r cur _ _
    refine ⟨by simp [groupByRankAux], by simp [groupByRankAux], by simp [groupByRankAux], ?_⟩
    simp [groupByRankAux]
  | cons m rest ih =>
    intro r cur hsorted hge
    have hsorted' := List.Pairwise.of_cons hsorted
    have hm : r ≤ m.rank := hge m (List.mem_cons_self _ _)
    by_cases heq : m.rank = r
    · have hge' : ∀ x ∈ rest, r ≤ x.rank := fun x hx => hge x (List.mem_cons_of_mem _ hx)
      have := ih r (m :: cur) hsorted' hge'
      simp only [groupByRankAux, if_pos heq]
      refine ⟨this.1, this.2.1, ?_, this.2.2.2.1, ?_⟩
      · intro k hk
        rcases this.2.2.1 k hk with h | ⟨m', hm', hrk⟩
        · exact Or.inl h
        · exact Or.inr ⟨m', List.mem_cons_of_mem _ hm', hrk⟩
      · intro x hx
        rcases List.mem_cons.mp hx with rfl | hx'
        · rw [heq]; exact this.2.2.2.1
        · exact this.2.2.2.2 x hx'
    · have hlt : r < m.rank := lt_of_le_of_ne hm (fun h => heq h.symm)
      have hge' : ∀ x ∈ rest, m.rank ≤ x.rank := fun x hx =>
        (List.rel_of_pairwise_cons hsorted hx)
      have := ih m.rank [m] hsorted' hge'
      simp only [groupByRankAux, if_neg heq, List.map_cons]
      refine ⟨?_, ?_, ?_, ?_, ?_⟩
      · rw [List.chain'_cons']
        refine ⟨?_, this.1⟩
        intro y hy
        have hy' : y ∈ (groupByRankAux m.rank [m] rest).map Prod.fst :=
          List.mem_of_mem_head? hy
        exact lt_of_lt_of_le hlt (this.2.1 y hy')
      · intro k hk
        rcases List.mem_cons.mp hk with rfl | hk'
        · exact le_refl _
        · exact le_of_lt (lt_of_lt_of_le hlt (this.2.1 k hk'))
      · intro k hk
        rcases List.mem_cons.mp hk with rfl | hk'
        · exact Or.inl rfl
        · rcases this.2.2.1 k hk' with h | ⟨m', hm', hrk⟩
          · exact Or.inr ⟨m, List.mem_cons_self _ _, h ▸ rfl⟩
          · exact Or.inr ⟨m', List.mem_cons_of_mem _ hm', hrk⟩
      · exact List.mem_cons_self _ _
      · intro x hx
        rcases List.mem_cons.mp hx with rfl | hx'
        · exact List.mem_cons_of_mem _ this.2.2.2.1
        · exact List.mem_cons_of_mem _ (this.2.2.2.2 x hx')

/-- Claim C3, amended: when the marks of a contest-marks block are sorted
by rank (equal ranks adjacent — the layout of actual CVR exports), the
adapter emits exactly one `Choice` per distinct rank value present among
the marks, in strictly ascending rank order.  (For an arbitrary ordering
this fails: `itertools::group_by` groups only consecutive equal ranks, see
the counterexample.) -/
theorem nist_rank_grouping_sorted (marks : List Mark) (candidates : CandidateMap Nat)
    (dropped_write_in : Option Nat)
    (hsorted : List.Pairwise (fun a b : Mark => a.rank ≤ b.rank) marks) :
    List.Chain' (· < ·) ((groupByRank marks).map Prod.fst) ∧
    (choicesOfContestMarks marks candidates dropped_write_in).length =
      ((groupByRank marks).map Prod.fst).length ∧
    (∀ k, k ∈ (groupByRank marks).map Prod.fst ↔ ∃ m ∈ marks, m.rank = k) := by
  cases marks with
  | nil =>
    refine ⟨by simp [groupByRank], by simp [choicesOfContestMarks], ?_⟩
    simp [groupByRank]
  | cons m rest =>
    have hge : ∀ x ∈ rest, m.rank ≤ x.rank := fun x hx =>
      List.rel_of_pairwise_cons hsorted hx
    have h := groupByRankAux_keys rest m.rank [m] (List.Pairwise.of_cons hsorted) hge
    refine ⟨h.1, by simp [choicesOfContestMarks], ?_⟩
    intro k
    constructor
    · intro hk
      rcases h.2.2.1 k hk with rfl | ⟨m', hm', hrk⟩
      · exact ⟨m, List.mem_cons_self _ _, rfl⟩
      · exact ⟨m', List.mem_cons_of_mem _ hm', hrk⟩
    · intro ⟨m', hm', hrk⟩
      rcases List.mem_cons.mp hm' with rfl | hm''
      · exact hrk ▸ h.2.2.2.1
      · exact hrk ▸ h.2.2.2.2 m' hm''

/-- Witness for the amended C3: sorted marks with a repeated rank 1 and a
rank 2 produce ascending keys `[1, 2]`, one choice per distinct rank. -/
theorem nist_rank_grouping_sorted_witness :
    List.Chain' (· < ·)
      ((groupByRank [⟨1, 1, false⟩, ⟨3, 1, false⟩, ⟨2, 2, false⟩]).map Prod.fst) ∧
    (choicesOfContestMarks [⟨1, 1, false⟩, ⟨3, 1, false⟩, ⟨2, 2, false⟩]
        ⟨[(1, ⟨"A", CandidateType.Regular⟩), (2, ⟨"B", CandidateType.Regular⟩),
          (3, ⟨"C", CandidateType.Regular⟩)]⟩ none).length =
      ((groupByRank [⟨1, 1, false⟩, ⟨3, 1, false⟩, ⟨2, 2, false⟩]).map Prod.fst).length ∧
    (∀ k, k ∈ (groupByRank [⟨1, 1, false⟩, ⟨3, 1, false⟩, ⟨2, 2, false⟩]).map Prod.fst ↔
      ∃ m ∈ ([⟨1, 1, false⟩, ⟨3, 1, false⟩, ⟨2, 2, false⟩] : List Mark), m.rank = k) :=
  nist_rank_grouping_sorted [⟨1, 1, false⟩, ⟨3, 1, false⟩, ⟨2, 2, false⟩]
    ⟨[(1, ⟨"A", CandidateType.Regular⟩), (2, ⟨"B", CandidateType.Regular⟩),
      (3, ⟨"C", CandidateType.Regular⟩)]⟩ none (by decide)

/-! ## Dominion RCR parser (`formats/dominion_rcr/parser.rs`)

The `nom` combinators used by the parser are embedded over `List Char`:
a parser returns `none` on failure and `some (rest, value)` on success,
mirroring `IResult<&str, T>`. -/

/-- The embedded parser type: remaining input and value on success. -/
def NomP (α : Type) : Type := List Char → Option (List Char × α)

/-- `nom::character::complete::char`. -/
def pChar (c : Char) : NomP Char := fun i =>
  match i with
  | x :: rest => if x = c then some (rest, c) else none
  | [] => none

/-- `nom::character::complete::tab`. -/
def pTab : NomP Char := pChar '\t'

/-- `nom::character::complete::line_ending`: matches `"\n"` or `"\r\n"`. -/
def pLineEnding : NomP Unit := fun i =>
  match i with
  | '\n' :: rest => some (rest, ())
  | '\r' :: '\n' :: rest => some (rest, ())
  | _ => none

/-- `nom::character::complete::not_line_ending`: the (possibly empty) run
of characters before a `'\r'`/`'\n'` or the end of input. -/
def pNotLineEnding : NomP (List Char) := fun i =>
  let t := i.takeWhile (fun c => !(c = '\n' ∨ c = '\r'))
  some (i.dropWhile (fun c => !(c = '\n' ∨ c = '\r')), t)

/-- `nom::character::complete::digit1`: one or more ASCII digits. -/
def pDigit1 : NomP (List Char) := fun i =>
  let t := i.takeWhile Char.isDigit
  if t.isEmpty then none else some (i.dropWhile Char.isDigit, t)

/-- Decimal value of a digit run (the `digits.parse().unwrap()` of
`unsigned_int`; the Rust code panics above `u32::MAX`, values in scope of
the claims stay far below it). -/
def natOfDigits (l : List Char) : Nat :=
  l.foldl (fun a c => 10 * a + (c.toNat - 48)) 0

/-- `unsigned_int` (`parser.rs` lines 11–15). -/
def unsigned_int : NomP Nat := fun i =>
  (pDigit1 i).map (fun r => (r.1, natOfDigits r.2))

/-- `nom::sequence::terminated`. -/
def pTerminated {α β : Type} (p : NomP α) (q : NomP β) : NomP α := fun i =>
  match p i with
  | some (i1, a) =>
    match q i1 with
    | some (i2, _) => some (i2, a)
    | none => none
  | none => none

/-- `nom::multi::count`. -/
def pCount {α : Type} (p : NomP α) : Nat → NomP (List α)
  | 0 => fun i => some (i, [])
  | n + 1 => fun i =>
    match p i with
    | none => none
    | some (i1, a) =>
      match pCount p n i1 with
      | none => none
      | some (i2, as_) => some (i2, a :: as_)

/-- Loop of `nom::multi::separated_list1` with explicit fuel (every
iteration of the grammar consumes at least the separator character, so
`input length + 1` fuel never runs out on the inputs considered here;
`nom` raises an error on a non-consuming iteration). -/
def pSepList1Aux {σ α : Type} (sep : NomP σ) (p : NomP α) :
    Nat → List Char → List α → Option (List Char × List α)
  | 0, _, _ => none
  | fuel + 1, i, acc =>
    match sep i with
    | none => some (i, acc.reverse)
    | some (i1, _) =>
      match p i1 with
      | none => some (i, acc.reverse)
      | some (i2, a) => pSepList1Aux sep p fuel i2 (a :: acc)

/-- `nom::multi::separated_list1`. -/
def pSepList1 {σ α : Type} (sep : NomP σ) (p : NomP α) : NomP (List α) := fun i =>
  match p i with
  | none => none
  | some (i1, a) => pSepList1Aux sep p (i1.length + 1) i1 [a]

/-- `nom::combinator::all_consuming`. -/
def pAllConsuming {α : Type} (p : NomP α) : NomP α := fun i =>
  match p i with
  | some ([], a) => some ([], a)
  | _ => none

/-- `RcrHeader` (`parser.rs` lines 17–23). -/
structure RcrHeader where
  num_seats : Nat
  num_candidates : Nat
  num_precincts : Nat
  num_counting_groups : Nat
deriving DecidableEq, Repr

/-- `parse_header` (`parser.rs` lines 25–38). -/
def parse_header : NomP RcrHeader := fun i =>
  match pTerminated unsigned_int pTab i with
  | none => none
  | some (i, num_seats) =>
    match pTerminated unsigned_int pTab i with
    | none => none
    | some (i, num_candidates) =>
      match pTerminated unsigned_int pTab i with
      | none => none
      | some (i, num_precincts) =>
        match pTerminated unsigned_int pLineEnding i with
        | none => none
        | some (i, num_counting_groups) =>
          some (i, ⟨num_seats, num_candidates, num_precincts, num_counting_groups⟩)

/-- `candidate` (`parser.rs` lines 40–46): a name line becomes a
`Regular` candidate with normalized name. -/
def rcrCandidate : NomP Candidate := fun i =>
  match pTerminated pNotLineEnding pLineEnding i with
  | none => none
  | some (i, name) => some (i, ⟨normalize_name ⟨name⟩ false, CandidateType.Regular⟩)

/-- `numbered` (`parser.rs` lines 48–52). -/
def rcrNumbered : NomP Unit := fun i =>
  match pTerminated unsigned_int pTab i with
  | none => none
  | some (i, _) =>
    match pTerminated pNotLineEnding pLineEnding i with
    | none => none
    | some (i, _) => some (i, ())

/-- `choice` (`parser.rs` lines 54–64): `0` is an `Undervote`, `n` is
`Vote(CandidateId(n-1))`. -/
def rcrChoice : NomP Choice := fun i =>
  match unsigned_int i with
  | none => none
  | some (i, candidate_id) =>
    some (i, if candidate_id = 0 then Choice.Undervote
      else Choice.Vote ⟨candidate_id - 1⟩)

/-- `ballot_entry` (`parser.rs` lines 66–74): `=`-separated choices; a
single choice stands, several collapse to `Overvote`. -/
def ballot_entry : NomP Choice := fun i =>
  match pSepList1 (pChar '=') rcrChoice i with
  | none => none
  | some (i, choices) =>
    some (i, match choices with
      | [choice] => choice
      | _ => Choice.Overvote)

/-- `ballot` (`parser.rs` lines 76–84): precinct, counting group, count,
then the tab-separated entries. -/
def rcrBallot : NomP (Nat × List Choice) := fun i =>
  match pTerminated unsigned_int pTab i with
  | none => none
  | some (i, _precinct) =>
    match pTerminated unsigned_int pTab i with
    | none => none
    | some (i, _counting_group) =>
      match pTerminated unsigned_int pTab i with
      | none => none
      | some (i, ballot_count) =>
        match pSepList1 pTab ballot_entry i with
        | none => none
        | some (i, choices) => some (i, (ballot_count, choices))

/-- The ballot expansion loop of `parse_rcr_file` (`parser.rs` lines
100–106): each aggregated ballot line is emitted `count` times, ids being
the decimal value of the ballots vector's length at push time. -/
def expandBallots (agg_ballots : List (Nat × List Choice)) : List Ballot :=
  agg_ballots.foldl
    (fun ballots nc =>
      (List.range nc.1).foldl
        (fun bs _ => bs ++ [Ballot.mk (toString bs.length) nc.2]) ballots)
    []

/-- `parse_rcr_file` (`parser.rs` lines 86–109). -/
def parse_rcr_file : NomP Election := fun i =>
  match parse_header i with
  | none => none
  | some (i, header) =>
    match pTerminated pNotLineEnding pLineEnding i with
    | none => none
    | some (i, _name) =>
      match pCount rcrCandidate header.num_candidates i with
      | none => none
      | some (i, candidates) =>
        match pCount rcrNumbered header.num_precincts i with
        | none => none
        | some (i, _) =>
          match pCount rcrNumbered header.num_counting_groups i with
          | none => none
          | some (i, _) =>
            match pTerminated (pSepList1 pLineEnding rcrBallot) pLineEnding i with
            | none => none
            | some (i, agg_ballots) =>
              some (i, Election.mk candidates (expandBallots agg_ballots))

/-- `rcr_file` (`parser.rs` lines 111–114): run the parser requiring the
whole input be consumed. -/
def rcr_file (i : List Char) : Option Election :=
  (pAllConsuming parse_rcr_file i).map (·.2)

/-- Claim C6 (scenario S5): parsing the given RCR input succeeds,
consumes the whole input, and yields 3 candidates and 4 ballots, each with
choices `[Vote(CandidateId(1)), Overvote, Undervote]` and sequential
decimal ids `"0"`, `"1"`, `"2"`, `"3"`. -/
theorem dominion_rcr_s5 :
    ∃ e : Election,
      rcr_file ("1\t3\t1\t1\nTitle\nA\nB\nC\n1\tP\n1\tG\n1\t1\t4\t2\t1=3\t0\n").data =
        some e ∧
      e.candidates.length = 3 ∧
      e.ballots =
        [⟨"0", [Choice.Vote ⟨1⟩, Choice.Overvote, Choice.Undervote]⟩,
         ⟨"1", [Choice.Vote ⟨1⟩, Choice.Overvote, Choice.Undervote]⟩,
         ⟨"2", [Choice.Vote ⟨1⟩, Choice.Overvote, Choice.Undervote]⟩,
         ⟨"3", [Choice.Vote ⟨1⟩, Choice.Overvote, Choice.Undervote]⟩] :=
  ⟨Election.mk
      [⟨"A", CandidateType.Regular⟩, ⟨"B", CandidateType.Regular⟩,
       ⟨"C", CandidateType.Regular⟩]
      [⟨"0", [Choice.Vote ⟨1⟩, Choice.Overvote, Choice.Undervote]⟩,
       ⟨"1", [Choice.Vote ⟨1⟩, Choice.Overvote, Choice.Undervote]⟩,
       ⟨"2", [Choice.Vote ⟨1⟩, Choice.Overvote, Choice.Undervote]⟩,
       ⟨"3", [Choice.Vote ⟨1⟩, Choice.Overvote, Choice.Undervote]⟩],
    by decide, by decide, by decide⟩

/-! ## US-MN Minneapolis adapter (`formats/us_mn_mpls/mod.rs`) -/

/-- Rust's `char::to_ascii_lowercase`. -/
def asciiLower (c : Char) : Char :=
  if 65 ≤ c.toNat ∧ c.toNat ≤ 90 then Char.ofNat (c.toNat + 32) else c

/-- Rust's `str::eq_ignore_ascii_case` (bytewise equality up to ASCII
case; UTF-8 byte equality coincides with character-sequence equality). -/
def eq_ignore_ascii_case (a b : String) : Bool :=
  a.data.map asciiLower = b.data.map asciiLower

/-- Rust's `str::trim` (whitespace stripped from both ends). -/
def rustTrim (s : String) : String :=
  ⟨((s.data.dropWhile Char.isWhitespace).reverse.dropWhile Char.isWhitespace).reverse⟩

/-- Rust's `str::is_empty`. -/
def strIsEmpty (s : String) : Bool := s.data.isEmpty

/-- Rust's `str::parse::<u32>()`: optional leading `'+'`, one or more
ASCII digits, value within `u32` range; everything else is an error. -/
def parse_u32 (s : String) : Option Nat :=
  let cs := match s.data with
    | '+' :: rest => rest
    | cs => cs
  if cs.isEmpty then none
  else if cs.all Char.isDigit then
    let v := natOfDigits cs
    if v < 2 ^ 32 then some v else none
  else none

/-- Modelled from the spec: the `calamine::Data` cell type (external
crate).  `Float` carries an exact rational standing for the `f64` (NaN and
infinities are not representable in this model and do not occur in count
cells); `Other` stands for the remaining variants
(`DateTime`, `Error`, …), which the adapter only hits in catch-all
branches. -/
inductive Data where
  | Int (n : ℤ)
  | Float (q : ℚ)
  | Str (s : String)
  | Bool (b : Bool)
  | Empty
  | Other
deriving DecidableEq, Repr

/-- Rust `i64 as u32` for the positive branch of `parse_count_cell`
(two's-complement truncation, i.e. reduction mod `2^32`). -/
def intAsU32 (n : ℤ) : Nat := n.toNat % 2 ^ 32

/-- Rust `f64 as u32` (saturating cast: negative values to 0, values
above `u32::MAX` to `u32::MAX`, otherwise truncation toward zero; the
truncation of a nonnegative rational is its floor). -/
def ratAsU32 (q : ℚ) : Nat := min q.floor.toNat (2 ^ 32 - 1)

namespace us_mn_mpls

/-- `parse_count_cell` (`us_mn_mpls/mod.rs` lines 47–60). -/
def parse_count_cell (cell : Option Data) : Nat :=
  match cell with
  | some (Data.Int n) => if n ≤ 0 then 1 else intAsU32 n
  | some (Data.Float q) => max (ratAsU32 q) 1
  | some (Data.Str s) => (parse_u32 s).getD 1
  | _ => 1

/-- `cell_to_string` (`us_mn_mpls/mod.rs` lines 62–71).  The textual
rendering of numeric and boolean cells uses Lean's `toString`, standing
for Rust's `Display`; the debug rendering of the remaining variants is
abstracted as a fixed placeholder (no claim depends on these strings). -/
def cell_to_string (cell : Option Data) : String :=
  match cell with
  | some (Data.Str s) => s
  | some (Data.Int n) => toString n
  | some (Data.Float q) => toString q
  | some (Data.Bool b) => toString b
  | some Data.Empty => ""
  | none => ""
  | some Data.Other => "Other"

/-- `parse_choice` (`us_mn_mpls/mod.rs` lines 23–45). -/
def parse_choice (candidate : String) (candidate_map : CandidateMap String) :
    Choice × CandidateMap String :=
  let c := rustTrim candidate
  if eq_ignore_ascii_case c "undervote" then (Choice.Undervote, candidate_map)
  else if eq_ignore_ascii_case c "overvote" then (Choice.Overvote, candidate_map)
  else if strIsEmpty c then (Choice.Undervote, candidate_map)
  else
    let nt :=
      if eq_ignore_ascii_case c "uwi" then ("Undeclared Write-ins", CandidateType.WriteIn)
      else (c, CandidateType.Regular)
    candidate_map.add_id_to_choice c ⟨nt.1, nt.2⟩

/-- The ballot-emission loop of `append_ballots` (`us_mn_mpls/mod.rs`
lines 116–121): `count` pushes, incrementing the id counter first. -/
def pushCounted (choices : List Choice) (precinct : String) (count : Nat)
    (st : List Ballot × Nat) : List Ballot × Nat :=
  (List.range count).foldl
    (fun st _ => (st.1 ++ [Ballot.mk (precinct ++ ":" ++ toString (st.2 + 1)) choices],
      st.2 + 1))
    st

/-- `append_ballots` (`us_mn_mpls/mod.rs` lines 73–122): build the choice
list (a whole-ballot `[Overvote]` when any of the three cells reads
"overvote"), then emit `count` identical ballots.  Returns the updated
`(candidate map, ballots, ballot_id)` state. -/
def append_ballots (candidate_map : CandidateMap String) (ballots : List Ballot)
    (precinct choice1 choice2 choice3 : String) (count : Nat) (ballot_id : Nat) :
    CandidateMap String × List Ballot × Nat :=
  let cm :=
    if eq_ignore_ascii_case choice1 "overvote" ∨ eq_ignore_ascii_case choice2 "overvote" ∨
        eq_ignore_ascii_case choice3 "overvote" then
      ([Choice.Overvote], candidate_map)
    else
      let p1 :=
        if ¬ strIsEmpty choice1 ∧ ¬ eq_ignore_ascii_case choice1 "undervote" then
          parse_choice choice1 candidate_map
        else (Choice.Undervote, candidate_map)
      let p2 :=
        if ¬ strIsEmpty choice2 ∧ ¬ eq_ignore_ascii_case choice2 "undervote" then
          parse_choice choice2 p1.2
        else (Choice.Undervote, p1.2)
      let p3 :=
        if ¬ strIsEmpty choice3 ∧ ¬ eq_ignore_ascii_case choice3 "undervote" then
          parse_choice choice3 p2.2
        else (Choice.Undervote, p2.2)
      ([p1.1, p2.1, p3.1], p3.2)
  let emitted := pushCounted cm.1 precinct count (ballots, ballot_id)
  (cm.2, emitted.1, emitted.2)

/-- `read_csv` (`us_mn_mpls/mod.rs` lines 124–161), abstracted over the
already-parsed CSV records (CSV I/O is external): rows shorter than 5
fields are skipped, missing fields default to `""` (`"1"` for the count),
the count string parses with `unwrap_or(1)`. -/
def read_csv (records : List (List String)) : Election :=
  let st := records.foldl
    (fun (st : CandidateMap String × List Ballot × Nat) record =>
      if record.length < 5 then st
      else
        let precinct := (record.get? 0).getD ""
        let choice1 := (record.get? 1).getD ""
        let choice2 := (record.get? 2).getD ""
        let choice3 := (record.get? 3).getD ""
        let count := (parse_u32 ((record.get? 4).getD "1")).getD 1
        append_ballots st.1 st.2.1 precinct choice1 choice2 choice3 count st.2.2)
    (CandidateMap.empty, [], 0)
  Election.mk st.1.into_vec st.2.1

/-- `read_xlsx` (`us_mn_mpls/mod.rs` lines 163–220), abstracted over the
rows of the first sheet (workbook I/O is external): the header row is
skipped, short rows are skipped, the count cell goes through
`parse_count_cell`. -/
def read_xlsx (rows : List (List Data)) : Election :=
  let st := (rows.drop 1).foldl
    (fun (st : CandidateMap String × List Ballot × Nat) row =>
      if row.length < 5 then st
      else
        let precinct := rustTrim (cell_to_string (row.get? 0))
        let choice1 := cell_to_string (row.get? 1)
        let choice2 := cell_to_string (row.get? 2)
        let choice3 := cell_to_string (row.get? 3)
        let count := parse_count_cell (row.get? 4)
        append_ballots st.1 st.2.1 precinct choice1 choice2 choice3 count st.2.2)
    (CandidateMap.empty, [], 0)
  Election.mk st.1.into_vec st.2.1

theorem pushCounted_length (choices : List Choice) (precinct : String) (count : Nat)
    (st : List Ballot × Nat) :
    (pushCounted choices precinct count st).1.length = st.1.length + count := by
  unfold pushCounted
  induction count generalizing st with
  | zero => simp
  | succ n ih =>
    rw [List.range_succ, List.foldl_append]
    simp [ih]
    omega

/-- Counterexample to C5 as stated: the count string `"0"` parses
successfully to 0 (`unwrap_or(1)` only fires on a parse *error*), so the
cell is non-positive yet not treated as 1, and a CSV data row carrying it
expands to no ballot at all.  The spreadsheet variant's
`parse_count_cell` hits the same hole in its `Data::String` arm. -/
theorem mpls_count_zero_counterexample :
    parse_count_cell (some (Data.Str "0")) = 0 ∧
    (read_csv [["p", "A", "B", "C", "0"]]).ballots = [] ∧
    (read_xlsx [[], [Data.Str "p", Data.Str "A", Data.Str "B", Data.Str "C",
      Data.Str "0"]]).ballots = [] := by
  refine ⟨by decide, by decide, by decide⟩

/-- Claim C5, amended: a count cell that is unparseable, missing, or a
non-positive *numeric* cell is treated as 1 (floats are additionally
clamped to at least 1), and a row emits exactly `count` ballots — so every
row expands to at least one ballot *except* when the count is a string
cell that parses to 0, which yields zero ballots. -/
theorem mpls_count_default (n : ℤ) (s : String) (q : ℚ)
    (hn : n ≤ 0) (hs : parse_u32 s = none) :
    parse_count_cell (some (Data.Int n)) = 1 ∧
    parse_count_cell (some (Data.Str s)) = 1 ∧
    1 ≤ parse_count_cell (some (Data.Float q)) ∧
    parse_count_cell none = 1 ∧
    parse_count_cell (some Data.Empty) = 1 ∧
    (∀ candidate_map ballots precinct choice1 choice2 choice3 count ballot_id,
      ((append_ballots candidate_map ballots precinct choice1 choice2 choice3 count
        ballot_id).2.1).length = ballots.length + count) := by
  refine ⟨by simp [parse_count_cell, hn], by simp [parse_count_cell, hs],
    by simp [parse_count_cell], rfl, rfl, ?_⟩
  intro candidate_map ballots precinct choice1 choice2 choice3 count ballot_id
  simp only [append_ballots]
  exact pushCounted_length _ _ _ _

/-- Witness for the amended C5: an `Int` cell `-3` and the unparseable
string `"x"` default to 1, and a row with count 2 emits 2 ballots. -/
theorem mpls_count_default_witness :
    parse_count_cell (some (Data.Int (-3))) = 1 ∧
    parse_count_cell (some (Data.Str "x")) = 1 ∧
    ((append_ballots CandidateMap.empty [] "p" "A" "B" "C" 2 0).2.1).length = 0 + 2 :=
  ⟨(mpls_count_default (-3) "x" 0 (by decide) (by decide)).1,
   (mpls_count_default (-3) "x" 0 (by decide) (by decide)).2.1,
   (mpls_count_default (-3) "x" 0 (by decide) (by decide)).2.2.2.2.2
     CandidateMap.empty [] "p" "A" "B" "C" 2 0⟩

end us_mn_mpls

/-! ## US-ME Maine adapter (`formats/us_me/mod.rs`) -/

/-- Modelled from the spec: the `xl::ExcelValue` cell type (external
crate).  `Number` carries an exact rational standing for the `f64`;
`Other` stands for the remaining variants (bool, date, error, …), which
the adapter treats like any non-string cell. -/
inductive ExcelValue where
  | Number (q : ℚ)
  | Str (s : String)
  | Other

namespace us_me

/-- `parse_choice` (`us_me/mod.rs` lines 27–49).  The capture of
`CANDIDATE_RX` (with fallback to the unmatched input string) comes from
the external `regex` crate and is abstracted as the `extract` parameter;
every theorem below holds for an arbitrary `extract`. -/
def parse_choice (extract : String → String) (candidate : String)
    (candidate_map : CandidateMap String) : Choice × CandidateMap String :=
  if candidate = "overvote" then (Choice.Overvote, candidate_map)
  else if candidate = "undervote" then (Choice.Undervote, candidate_map)
  else
    let c := extract candidate
    candidate_map.add_id_to_choice c ⟨normalize_name c true, CandidateType.Regular⟩

/-- The string read for loop index `i` of the per-row loop (`us_me/mod.rs`
lines 81–92): columns 3, 4, 5 are read as candidate strings when they
hold a string cell; every other case — including all of columns 6..9 — is
the literal `"undervote"`. -/
def cellString (row : Nat → ExcelValue) (i : Nat) : String :=
  if i < 6 then
    match row i with
    | ExcelValue.Str s => s
    | _ => "undervote"
  else "undervote"

/-- One iteration of the per-row choices loop (`us_me/mod.rs` lines
81–94). -/
def rowStep (extract : String → String) (row : Nat → ExcelValue)
    (st : List Choice × CandidateMap String) (i : Nat) :
    List Choice × CandidateMap String :=
  let p := parse_choice extract (cellString row i) st.2
  (st.1 ++ [p.1], p.2)

/-- The per-row choices loop of `maine_ballot_reader` (`us_me/mod.rs`
lines 78–95): `for i in 3..10`.  A row of the sheet is modelled as a
total function from column index to cell (rows of these workbooks always
carry the indexed cells; Rust would panic on a shorter row). -/
def rowChoices (extract : String → String) (row : Nat → ExcelValue)
    (m : CandidateMap String) : List Choice × CandidateMap String :=
  (List.range' 3 7).foldl (rowStep extract row) ([], m)

/-- One iteration of the per-file row loop (`us_me/mod.rs` lines 71–99):
the ballot id is column 0, which must be a number (`as u32`,
stringified) — the Rust code panics otherwise, modelled as `none`. -/
def fileStep (extract : String → String)
    (acc : Option (List Ballot × CandidateMap String)) (row : Nat → ExcelValue) :
    Option (List Ballot × CandidateMap String) :=
  match acc with
  | none => none
  | some st =>
    match row 0 with
    | ExcelValue.Number q =>
      let rc := rowChoices extract row st.2
      some (st.1 ++ [Ballot.mk (toString (ratAsU32 q)) rc.1], rc.2)
    | _ => none

/-- The per-file closure of `maine_ballot_reader` (`us_me/mod.rs` lines
61–108): skip the header row, then append one ballot per row. -/
def read_file (extract : String → String) (rows : List (Nat → ExcelValue)) :
    Option (List Ballot × CandidateMap String) :=
  (rows.drop 1).foldl (fileStep extract) (some ([], CandidateMap.empty))

/-- The file traversal of `maine_ballot_reader` (`us_me/mod.rs` lines
58–109): each file yields its ballots and the names of its local
candidate map. -/
def read_files (extract : String → String) :
    List (List (Nat → ExcelValue)) → Option (List (List Ballot × List String))
  | [] => some []
  | f :: rest =>
    match read_file extract f with
    | none => none
    | some st =>
      (read_files extract rest).map
        (fun rs => (st.1, st.2.into_vec.map (·.name)) :: rs)

/-- `maine_ballot_reader` (`us_me/mod.rs` lines 53–130), abstracted over
the parsed workbooks: concatenate the per-file ballots, then rebuild the
final candidate map by re-inserting every per-file candidate name in
order. -/
def maine_ballot_reader (extract : String → String)
    (files : List (List (Nat → ExcelValue))) : Option Election :=
  match read_files extract files with
  | none => none
  | some file_results =>
    let ballots := file_results.flatMap (·.1)
    let all_candidates := file_results.flatMap (·.2)
    let final := all_candidates.foldl
      (fun m name => (m.add name ⟨name, CandidateType.Regular⟩).2)
      CandidateMap.empty
    some (Election.mk final.into_vec ballots)

theorem parse_choice_undervote (extract : String → String) (m : CandidateMap String) :
    parse_choice extract "undervote" m = (Choice.Undervote, m) := by
  unfold parse_choice
  rw [if_neg (by decide), if_pos rfl]

/-- Property of one emitted ballot for claim C10. -/
def ballotShape (b : Ballot) : Prop :=
  b.choices.length = 7 ∧
  b.choices[3]? = some Choice.Undervote ∧
  b.choices[4]? = some Choice.Undervote ∧
  b.choices[5]? = some Choice.Undervote ∧
  b.choices[6]? = some Choice.Undervote

/-- Shape of one row's choices: seven entries, the entries at positions
3–6 (fed from spreadsheet columns 6–9) always `Undervote`. -/
theorem rowChoices_shape (extract : String → String) (row : Nat → ExcelValue)
    (m : CandidateMap String) :
    ∃ c3 c4 c5 m', rowChoices extract row m =
      ([c3, c4, c5, Choice.Undervote, Choice.Undervote, Choice.Undervote,
        Choice.Undervote], m') := by
  have h6 : ∀ i, 6 ≤ i → ∀ st : List Choice × CandidateMap String,
      rowStep extract row st i = (st.1 ++ [Choice.Undervote], st.2) := by
    intro i hi st
    unfold rowStep cellString
    rw [if_neg (by omega), parse_choice_undervote]
  unfold rowChoices
  rw [show List.range' 3 7 = [3, 4, 5, 6, 7, 8, 9] from rfl]
  simp only [List.foldl_cons, List.foldl_nil]
  rw [h6 6 (by omega), h6 7 (by omega), h6 8 (by omega), h6 9 (by omega)]
  simp only [rowStep]
  exact ⟨_, _, _, _, rfl⟩

theorem ballotShape_of_rowChoices (extract : String → String) (row : Nat → ExcelValue)
    (m : CandidateMap String) (id : String) :
    ballotShape (Ballot.mk id (rowChoices extract row m).1) := by
  obtain ⟨c3, c4, c5, m', h⟩ := rowChoices_shape extract row m
  rw [show (rowChoices extract row m).1 =
    [c3, c4, c5, Choice.Undervote, Choice.Undervote, Choice.Undervote, Choice.Undervote]
    from by rw [h]]
  exact ⟨rfl, rfl, rfl, rfl, rfl⟩

theorem foldl_fileStep_none (extract : String → String) (l : List (Nat → ExcelValue)) :
    l.foldl (fileStep extract) none = none := by
  induction l with
  | nil => rfl
  | cons x rest ih => simpa [fileStep] using ih

theorem foldl_fileStep_shape (extract : String → String) (l : List (Nat → ExcelValue)) :
    ∀ acc : List Ballot × CandidateMap String, (∀ b ∈ acc.1, ballotShape b) →
    ∀ bs m, l.foldl (fileStep extract) (some acc) = some (bs, m) →
    ∀ b ∈ bs, ballotShape b := by
  induction l with
  | nil =>
    intro acc hacc bs m hfold b hb
    simp only [List.foldl_nil, Option.some.injEq] at hfold
    exact hacc b (by rw [hfold]; exact hb)
  | cons row rest ih =>
    intro acc hacc bs m hfold b hb
    simp only [List.foldl_cons] at hfold
    cases hrow : row 0 with
    | Number q =>
      simp only [fileStep, hrow] at hfold
      refine ih _ ?_ bs m hfold b hb
      intro b' hb'
      rcases List.mem_append.mp hb' with h' | h'
      · exact hacc b' h'
      · rw [List.mem_singleton.mp h']
        exact ballotShape_of_rowChoices extract row acc.2 _
    | Str s =>
      simp only [fileStep, hrow] at hfold
      rw [foldl_fileStep_none] at hfold
      exact absurd hfold (by simp)
    | Other =>
      simp only [fileStep, hrow] at hfold
      rw [foldl_fileStep_none] at hfold
      exact absurd hfold (by simp)

theorem read_file_shape (extract : String → String) (rows : List (Nat → ExcelValue))
    (bs : List Ballot) (m : CandidateMap String)
    (h : read_file extract rows = some (bs, m)) :
    ∀ b ∈ bs, ballotShape b :=
  foldl_fileStep_shape extract (rows.drop 1) ([], CandidateMap.empty) (by simp) bs m h

/-- Claim C10: every ballot emitted by `maine_ballot_reader` has exactly
7 choices, and the choices at positions 3 through 6 are always
`Undervote` (only spreadsheet columns 3–5 are read as candidate strings;
columns 6–9 are unconditionally treated as `"undervote"`). -/
theorem maine_ballot_shape (extract : String → String)
    (files : List (List (Nat → ExcelValue))) (e : Election)
    (h : maine_ballot_reader extract files = some e) :
    ∀ b ∈ e.ballots, ballotShape b := by
  cases hfs : read_files extract files with
  | none =>
    unfold maine_ballot_reader at h
    rw [hfs] at h
    exact absurd h (by simp)
  | some file_results =>
    unfold maine_ballot_reader at h
    rw [hfs] at h
    have he : Election.mk ((file_results.flatMap (·.2)).foldl
        (fun m name => (m.add name ⟨name, CandidateType.Regular⟩).2)
        CandidateMap.empty).into_vec (file_results.flatMap (·.1)) = e :=
      Option.some.inj h
    rw [← he]
    intro b hb
    have hall : ∀ (fs : List (List (Nat → ExcelValue))) (rs : List (List Ballot × List String)),
        read_files extract fs = some rs → ∀ p ∈ rs, ∀ b ∈ p.1, ballotShape b := by
      intro fs
      induction fs with
      | nil =>
        intro rs hrs p hp
        simp only [read_files, Option.some.injEq] at hrs
        rw [← hrs] at hp
        exact absurd hp (by simp)
      | cons f rest ihf =>
        intro rs hrs p hp
        simp only [read_files] at hrs
        cases hf : read_file extract f with
        | none => rw [hf] at hrs; exact absurd hrs (by simp)
        | some st =>
          rw [hf] at hrs
          cases hr : read_files extract rest with
          | none => rw [hr] at hrs; exact absurd hrs (by simp)
          | some rs' =>
            rw [hr] at hrs
            simp only [Option.map_some', Option.map, Option.some.injEq] at hrs
            rw [← hrs] at hp
            rcases List.mem_cons.mp hp with rfl | hp'
            · exact read_file_shape extract f st.1 st.2 (by rw [hf])
            · exact ihf rs' hr p hp'
    have hb' := List.mem_flatMap.mp hb
    obtain ⟨p, hp, hbp⟩ := hb'
    exact hall files file_results hfs p hp b hbp

/-- Witness for C10: a one-file workbook whose single data row has the
numeric id 7 and non-string cells everywhere produces one ballot of seven
undervotes. -/
theorem maine_ballot_shape_witness :
    ballotShape (Ballot.mk "7"
      [Choice.Undervote, Choice.Undervote, Choice.Undervote, Choice.Undervote,
       Choice.Undervote, Choice.Undervote, Choice.Undervote]) :=
  maine_ballot_shape id
    [[fun _ => ExcelValue.Other,
      fun i => if i = 0 then ExcelValue.Number ⟨7, 1, one_ne_zero, Nat.coprime_one_right _⟩
        else ExcelValue.Other]]
    (Election.mk []
      [Ballot.mk "7"
        [Choice.Undervote, Choice.Undervote, Choice.Undervote, Choice.Undervote,
         Choice.Undervote, Choice.Undervote, Choice.Undervote]])
    (by rfl)
    (Ballot.mk "7"
      [Choice.Undervote, Choice.Undervote, Choice.Undervote, Choice.Undervote,
       Choice.Undervote, Choice.Undervote, Choice.Undervote])
    (List.mem_singleton.mpr rfl)

end us_me

/-! ## Report orchestrator and index (`commands/report.rs`) -/

/-- `ContestIndexEntry` (`model/report.rs` via `commands/report.rs` lines
88–102): the per-contest projection of a report. -/
structure ContestIndexEntry where
  office : String
  office_name : String
  name : String
  winner : String
  num_candidates : Nat
  num_rounds : Nat
  condorcet_winner : Option String
  has_non_condorcet_winner : Bool
deriving DecidableEq, Repr

/-- `ElectionIndexEntry` (`commands/report.rs` lines 322–328). -/
structure ElectionIndexEntry where
  path : String
  jurisdiction_name : String
  election_name : String
  date : String
  contests : List ContestIndexEntry
deriving DecidableEq, Repr

/-- `ReportIndex` (`commands/report.rs` lines 420–422). -/
structure ReportIndex where
  elections : List ElectionIndexEntry
deriving DecidableEq, Repr

/-- Modelled from the spec: `Jurisdiction` metadata
(`model/metadata.rs`, not under `src/`), restricted to the fields the
orchestrator control flow reads directly (`path` for the filter, `name`);
`offices` and `elections` are consumed only inside the per-jurisdiction
processing, which is abstracted as a function argument below because it
calls the external preprocessing and report generation. -/
structure Jurisdiction where
  path : String
  name : String
deriving DecidableEq, Repr

/-- The jurisdiction filter of `report` (`commands/report.rs` lines
378–386): keep jurisdictions whose `path` equals the filter. -/
def jurisdictionFilter (jurisdictions : List (String × Jurisdiction))
    (jurisdiction_filter : Option String) : List (String × Jurisdiction) :=
  match jurisdiction_filter with
  | some filter => jurisdictions.filter (fun jk => jk.2.path = filter)
  | none => jurisdictions

/-- The descending `(date, path)` comparator of
`commands/report.rs` line 419
(`sort_by(|a, b| (&b.date, &b.path).cmp(&(&a.date, &a.path)))`): entry `a`
may precede entry `b` exactly when `(b.date, b.path)` is
lexicographically at most `(a.date, a.path)`.  Rust compares strings by
bytes; UTF-8 byte order coincides with the code-point order used by
Lean's `String` order. -/
def indexOrder (a b : ElectionIndexEntry) : Prop :=
  b.date < a.date ∨ (b.date = a.date ∧ b.path ≤ a.path)

instance : DecidableRel indexOrder := fun _ _ =>
  inferInstanceAs (Decidable (_ ∨ _))

instance : IsTotal ElectionIndexEntry indexOrder where
  total a b := by
    unfold indexOrder
    rcases lt_trichotomy a.date b.date with h | h | h
    · exact Or.inr (Or.inl h)
    · rcases le_total a.path b.path with hp | hp
      · exact Or.inr (Or.inr ⟨h, hp⟩)
      · exact Or.inl (Or.inr ⟨h.symm, hp⟩)
    · exact Or.inl (Or.inl h)

instance : IsTrans ElectionIndexEntry indexOrder where
  trans a b c hab hbc := by
    unfold indexOrder at *
    rcases hab with h1 | ⟨h1, p1⟩
    · rcases hbc with h2 | ⟨h2, p2⟩
      · exact Or.inl (lt_trans h2 h1)
      · exact Or.inl (h2 ▸ h1)
    · rcases hbc with h2 | ⟨h2, p2⟩
      · exact Or.inl (h1 ▸ h2)
      · exact Or.inr ⟨h2.trans h1, p2.trans p1⟩

/-- The sort of `commands/report.rs` line 419.  Rust's
`Vec::sort_by` is a stable comparison sort; it is modelled by insertion
sort (also stable), whose result is sorted for the same comparator. -/
def report_sort (entries : List ElectionIndexEntry) : List ElectionIndexEntry :=
  List.insertionSort indexOrder entries

/-- `report` (`commands/report.rs` lines 363–425), with the external
pieces abstracted: `jurisdictions` is what `read_meta` yields, and
`process_jurisdiction` stands for `process_jurisdiction` (lines 332–361),
whose election entries come from the external preprocessing and report
generation.  The returned value is the `ReportIndex` written to
`report_dir/index.json`; `none` means the function returned early without
writing it (after the empty-result warning of lines 388–398). -/
def report (jurisdictions : List (String × Jurisdiction))
    (process_jurisdiction : Jurisdiction → List ElectionIndexEntry)
    (jurisdiction_filter : Option String) : Option ReportIndex :=
  let filtered_jurisdictions := jurisdictionFilter jurisdictions jurisdiction_filter
  if filtered_jurisdictions.isEmpty then none
  else
    let election_index_entries :=
      (filtered_jurisdictions.map (fun jk => process_jurisdiction jk.2)).flatten
    some { elections := report_sort election_index_entries }

/-- A jurisdiction-processing stub producing no election entries (used by
the closed statements below). -/
def noEntries : Jurisdiction → List ElectionIndexEntry := fun _ => []

/-- A fixed election index entry for the closed statements below. -/
def sampleEntry : ElectionIndexEntry :=
  ⟨"j/e", "Jurisdiction", "Election", "2020-11-03", []⟩

/-- A jurisdiction-processing stub producing one fixed entry. -/
def sampleProcess : Jurisdiction → List ElectionIndexEntry := fun _ => [sampleEntry]

/-- Counterexample to C8 as stated: when the jurisdiction filter retains
no jurisdictions (or the metadata is empty), `report` warns and returns
early — `index.json` is *not* written. -/
theorem report_empty_counterexample :
    report [("j1", ⟨"j1", "Jurisdiction One"⟩)] noEntries (some "other") = none ∧
    report [] noEntries none = none := by
  constructor
  · decide
  · decide

/-- Claim C8, amended: `report` writes `report_dir/index.json` (with the
flattened, sorted election index entries) exactly when the possibly
filtered jurisdiction list is nonempty; when the filter retains no
jurisdictions, only a warning is emitted and no index is written. -/
theorem report_writes_index (jurisdictions : List (String × Jurisdiction))
    (process_jurisdiction : Jurisdiction → List ElectionIndexEntry)
    (jurisdiction_filter : Option String) :
    (jurisdictionFilter jurisdictions jurisdiction_filter ≠ [] →
      report jurisdictions process_jurisdiction jurisdiction_filter =
        some ⟨report_sort ((jurisdictionFilter jurisdictions jurisdiction_filter).map
          (fun jk => process_jurisdiction jk.2)).flatten⟩) ∧
    (jurisdictionFilter jurisdictions jurisdiction_filter = [] →
      report jurisdictions process_jurisdiction jurisdiction_filter = none) := by
  constructor
  · intro hne
    unfold report
    rw [if_neg (by simpa [List.isEmpty_iff] using hne)]
  · intro he
    unfold report
    rw [if_pos (by simpa [List.isEmpty_iff] using he)]

/-- Witness for the amended C8: one unfiltered jurisdiction with one
entry yields an index holding that entry. -/
theorem report_writes_index_witness :
    report [("j", ⟨"j", "J"⟩)] sampleProcess none =
      some ⟨report_sort (([("j", (⟨"j", "J"⟩ : Jurisdiction))].map
        (fun jk => sampleProcess jk.2)).flatten)⟩ :=
  (report_writes_index [("j", ⟨"j", "J"⟩)] sampleProcess none).1 (by decide)

/-- Claim C9: in the `ReportIndex` written by `report`, every adjacent
pair `a` then `b` of `elections` satisfies
`(a.date, a.path) ≥ (b.date, b.path)` lexicographically — the sequence is
sorted descending by `(date, path)`. -/
theorem report_index_sorted (jurisdictions : List (String × Jurisdiction))
    (process_jurisdiction : Jurisdiction → List ElectionIndexEntry)
    (jurisdiction_filter : Option String) (ri : ReportIndex)
    (h : report jurisdictions process_jurisdiction jurisdiction_filter = some ri) :
    List.Chain' (fun a b => b.date < a.date ∨ (b.date = a.date ∧ b.path ≤ a.path))
      ri.elections := by
  unfold report at h
  by_cases he : (jurisdictionFilter jurisdictions jurisdiction_filter).isEmpty
  · rw [if_pos he] at h
    exact absurd h (by simp)
  · rw [if_neg he] at h
    have hri : ri = ⟨report_sort ((jurisdictionFilter jurisdictions
        jurisdiction_filter).map (fun jk => process_jurisdiction jk.2)).flatten⟩ :=
      (Option.some.inj h).symm
    rw [hri]
    have hs : List.Sorted indexOrder (report_sort ((jurisdictionFilter jurisdictions
        jurisdiction_filter).map (fun jk => process_jurisdiction jk.2)).flatten) :=
      List.sorted_insertionSort indexOrder _
    exact List.Pairwise.chain' hs

/-- Witness for C9: a single-jurisdiction run produces a (trivially)
descending singleton index. -/
theorem report_index_sorted_witness :
    List.Chain' (fun a b : ElectionIndexEntry =>
        b.date < a.date ∨ (b.date = a.date ∧ b.path ≤ a.path))
      (ReportIndex.mk [sampleEntry]).elections :=
  report_index_sorted [("j", ⟨"j", "J"⟩)] sampleProcess none ⟨[sampleEntry]⟩ (by decide)

/-! ## NIST batch reader vs. per-contest reads (`formats/nist_sp_1500/mod.rs`)

Directory I/O is abstracted: `cvr_files` is the sorted list of
`CvrExport*.json` directory entries paired with their parse result
(`none` for a file that failed to open or parse — both readers log and
skip such a file).  Both readers receive the same manifest and file list,
which is the premise that all contests share one CVR directory. -/

/-- The two recognized loader parameters read by the batch reader
(`mod.rs` lines 327–331 and 372–376): the shared `cvr` sub-path and the
per-contest `dropUnqualifiedWriteIn` flag. -/
structure NistParams where
  cvr : String
  dropUnqualifiedWriteIn : Bool
deriving DecidableEq, Repr

/-- The ballot built for one matching contest-marks block
(`mod.rs` lines 128–131 and 450–453). -/
def nistBallot (filename : String) (s : Session) (c : SessionContest)
    (candidates : CandidateMap Nat) (dropped_write_in : Option Nat) : Ballot :=
  Ballot.mk (filename ++ ":" ++ s.record_id)
    (choicesOfContestMarks c.marks candidates dropped_write_in)

/-- `stream_process_cvr_file` (`mod.rs` lines 95–138) restricted to one
parsed file: the ballots pushed for the target contest, in session order. -/
def fileBallots (filename : String) (cvr : CvrExport) (contest_id : Nat)
    (candidates : CandidateMap Nat) (dropped_write_in : Option Nat) : List Ballot :=
  cvr.sessions.flatMap
    (fun s => (s.contests.filter (fun c => c.id = contest_id)).map
      (fun c => nistBallot filename s c candidates dropped_write_in))

/-- The file loop of `read_from_directory` (`mod.rs` lines 189–225):
stream every CVR file, appending the ballots of the target contest;
unreadable or unparseable files are skipped. -/
def readDirBallots (contest : Nat) (candidates : CandidateMap Nat)
    (dropped_write_in : Option Nat) :
    List (String × Option CvrExport) → List Ballot → List Ballot
  | [], ballots => ballots
  | fc :: rest, ballots =>
    match fc.2 with
    | none => readDirBallots contest candidates dropped_write_in rest ballots
    | some cvr => readDirBallots contest candidates dropped_write_in rest
        (ballots ++ fileBallots fc.1 cvr contest candidates dropped_write_in)

/-- `read_from_directory` (`mod.rs` lines 140–230): build the candidate
map once, then stream every CVR file. -/
def read_from_directory (manifest : CandidateManifest)
    (cvr_files : List (String × Option CvrExport)) (contest : Nat)
    (drop_unqualified_write_in : Bool) : Election :=
  let cd := get_candidates manifest contest drop_unqualified_write_in
  Election.mk cd.1.into_vec (readDirBallots contest cd.1 cd.2 cvr_files [])

/-- The per-contest state of the batch reader (`mod.rs` lines 368–381):
`(CandidateMap, dropped_write_in, ballot bucket)`. -/
structure ContestBucket where
  candidates : CandidateMap Nat
  dropped_write_in : Option Nat
  ballots : List Ballot
deriving DecidableEq, Repr

/-- Lookup in an association list keyed by contest id (the
`HashMap<u32, _>` of the batch reader holds one entry per key). -/
def lookupA {α : Type} (k : Nat) : List (Nat × α) → Option α
  | [] => none
  | kv :: rest => if kv.1 = k then some kv.2 else lookupA k rest

/-- `HashMap::insert` (overwrite an existing key, else append). -/
def insertOv {α : Type} (k : Nat) (v : α) : List (Nat × α) → List (Nat × α)
  | [] => [(k, v)]
  | kv :: rest => if kv.1 = k then (k, v) :: rest else kv :: insertOv k v rest

/-- `HashMap::get_mut` followed by an in-place update (no effect when the
key is absent). -/
def updateA {α : Type} (k : Nat) (f : α → α) : List (Nat × α) → List (Nat × α)
  | [] => []
  | kv :: rest => if kv.1 = k then (kv.1, f kv.2) :: rest else kv :: updateA k f rest

/-- The candidate-map setup loop of `nist_batch_reader`
(`mod.rs` lines 368–382). -/
def initStep (manifest : CandidateManifest) (acc : List (Nat × ContestBucket))
    (cp : Nat × NistParams) : List (Nat × ContestBucket) :=
  let gc := get_candidates manifest cp.1 cp.2.dropUnqualifiedWriteIn
  insertOv cp.1 ⟨gc.1, gc.2, []⟩ acc

def contestDataInit (manifest : CandidateManifest) (contests : List (Nat × NistParams)) :
    List (Nat × ContestBucket) :=
  contests.foldl (initStep manifest) []

/-- One contest-marks block of the batch loop (`mod.rs` lines 432–455):
append a ballot to the block's contest bucket, if that contest is
tracked. -/
def batchContestStep (filename : String) (s : Session)
    (data : List (Nat × ContestBucket)) (c : SessionContest) : List (Nat × ContestBucket) :=
  updateA c.id
    (fun b =>
      { b with ballots :=
          b.ballots ++ [nistBallot filename s c b.candidates b.dropped_write_in] })
    data

/-- One session of the batch loop (`mod.rs` lines 431–456). -/
def batchSessionStep (filename : String) (data : List (Nat × ContestBucket))
    (s : Session) : List (Nat × ContestBucket) :=
  s.contests.foldl (batchContestStep filename s) data

/-- One parsed CVR file of the batch loop (`mod.rs` lines 430–456). -/
def batchFile (filename : String) (cvr : CvrExport)
    (data : List (Nat × ContestBucket)) : List (Nat × ContestBucket) :=
  cvr.sessions.foldl (batchSessionStep filename) data

/-- The file loop of the batch reader (`mod.rs` lines 403–466);
unreadable or unparseable files are skipped. -/
def batchRun : List (String × Option CvrExport) → List (Nat × ContestBucket) →
    List (Nat × ContestBucket)
  | [], data => data
  | fc :: rest, data =>
    match fc.2 with
    | none => batchRun rest data
    | some cvr => batchRun rest (batchFile fc.1 cvr data)

/-- `nist_batch_reader` (`mod.rs` lines 318–482): set up one bucket per
target contest, stream every CVR file once distributing ballots, then
convert each bucket to an `Election`.  The `HashMap` is modelled as an
association list; the claims read it through `lookupA`. -/
def nist_batch_reader (manifest : CandidateManifest)
    (cvr_files : List (String × Option CvrExport))
    (contests : List (Nat × NistParams)) : List (Nat × Election) :=
  if contests.isEmpty then []
  else
    (batchRun cvr_files (contestDataInit manifest contests)).map
      (fun kb => (kb.1, Election.mk kb.2.candidates.into_vec kb.2.ballots))

theorem lookupA_insertOv_self {α : Type} (k : Nat) (v : α) (d : List (Nat × α)) :
    lookupA k (insertOv k v d) = some v := by
  induction d with
  | nil => simp [insertOv, lookupA]
  | cons kv rest ih =>
    by_cases h : kv.1 = k
    · simp [insertOv, lookupA, h]
    · simp [insertOv, lookupA, h, ih]

theorem lookupA_insertOv_ne {α : Type} (k k' : Nat) (v : α) (d : List (Nat × α))
    (h : k' ≠ k) : lookupA k' (insertOv k v d) = lookupA k' d := by
  have hkk' : ¬ k = k' := fun hh => h hh.symm
  induction d with
  | nil =>
    show lookupA k' [(k, v)] = lookupA k' []
    simp only [lookupA]
    rw [if_neg hkk']
  | cons kv rest ih =>
    by_cases hk : kv.1 = k
    · have hkv : ¬ kv.1 = k' := fun hh => hkk' (hk ▸ hh)
      simp only [insertOv, if_pos hk, lookupA]
      rw [if_neg hkk', if_neg hkv]
    · simp only [insertOv, if_neg hk, lookupA]
      by_cases hk' : kv.1 = k'
      · rw [if_pos hk', if_pos hk']
      · rw [if_neg hk', if_neg hk', ih]

theorem lookupA_updateA_self {α : Type} (k : Nat) (f : α → α) (d : List (Nat × α)) :
    lookupA k (updateA k f d) = (lookupA k d).map f := by
  induction d with
  | nil => simp [updateA, lookupA]
  | cons kv rest ih =>
    by_cases h : kv.1 = k
    · simp [updateA, lookupA, h]
    · simp [updateA, lookupA, h, ih]

theorem lookupA_updateA_ne {α : Type} (k k' : Nat) (f : α → α) (d : List (Nat × α))
    (h : k' ≠ k) : lookupA k' (updateA k f d) = lookupA k' d := by
  induction d with
  | nil => rfl
  | cons kv rest ih =>
    by_cases hk : kv.1 = k
    · have hkv : ¬ kv.1 = k' := fun hh => h ((hk ▸ hh : k = k')).symm
      simp only [updateA, if_pos hk, lookupA]
      rw [if_neg hkv, if_neg hkv]
    · simp only [updateA, if_neg hk, lookupA]
      by_cases hk' : kv.1 = k'
      · rw [if_pos hk', if_pos hk']
      · rw [if_neg hk', if_neg hk', ih]

theorem lookupA_map_election (k : Nat) (l : List (Nat × ContestBucket)) :
    lookupA k (l.map (fun kb => (kb.1, Election.mk kb.2.candidates.into_vec kb.2.ballots))) =
      (lookupA k l).map (fun b => Election.mk b.candidates.into_vec b.ballots) := by
  induction l with
  | nil => rfl
  | cons kb rest ih =>
    by_cases h : kb.1 = k
    · simp [lookupA, h]
    · simp [lookupA, h, ih]

/-- The parameters of the *last* entry of the batch contest list carrying
the given contest id (`HashMap::insert` keeps the last insertion). -/
def lastParamFor (cid : Nat) : List (Nat × NistParams) → Option NistParams
  | [] => none
  | cp :: rest =>
    match lastParamFor cid rest with
    | some q => some q
    | none => if cp.1 = cid then some cp.2 else none

theorem lastParamFor_mem (cid : Nat) (contests : List (Nat × NistParams)) (q : NistParams)
    (h : lastParamFor cid contests = some q) : (cid, q) ∈ contests := by
  induction contests with
  | nil => exact absurd h (by simp [lastParamFor])
  | cons cp rest ih =>
    simp only [lastParamFor] at h
    cases hl : lastParamFor cid rest with
    | some q' =>
      rw [hl] at h
      cases h
      exact List.mem_cons_of_mem _ (ih hl)
    | none =>
      rw [hl] at h
      by_cases hc : cp.1 = cid
      · rw [if_pos hc] at h
        cases h
        rw [← hc]
        exact List.mem_cons_self _ _
      · rw [if_neg hc] at h
        exact absurd h (by simp)

theorem lastParamFor_isSome (cid : Nat) (p : NistParams) (contests : List (Nat × NistParams))
    (hmem : (cid, p) ∈ contests) : ∃ q, lastParamFor cid contests = some q := by
  induction contests with
  | nil => exact absurd hmem (List.not_mem_nil _)
  | cons cp rest ih =>
    simp only [lastParamFor]
    cases hl : lastParamFor cid rest with
    | some q' => exact ⟨q', rfl⟩
    | none =>
      rcases List.mem_cons.mp hmem with h | h
      · rw [← h]
        exact ⟨p, by rw [if_pos rfl]⟩
      · obtain ⟨q', hq'⟩ := ih h
        exact absurd hq' (by rw [hl]; simp)

theorem init_fold_lookup (manifest : CandidateManifest) (cid : Nat)
    (contests : List (Nat × NistParams)) :
    ∀ acc, lookupA cid (contests.foldl (initStep manifest) acc) =
      match lastParamFor cid contests with
      | some q => some ⟨(get_candidates manifest cid q.dropUnqualifiedWriteIn).1,
          (get_candidates manifest cid q.dropUnqualifiedWriteIn).2, []⟩
      | none => lookupA cid acc := by
  induction contests with
  | nil => intro acc; rfl
  | cons cp rest ih =>
    intro acc
    rw [List.foldl_cons, ih]
    simp only [lastParamFor]
    cases hl : lastParamFor cid rest with
    | some q => rfl
    | none =>
      by_cases hc : cp.1 = cid
      · rw [if_pos hc]
        unfold initStep
        rw [hc, lookupA_insertOv_self]
      · rw [if_neg hc]
        unfold initStep
        rw [lookupA_insertOv_ne _ _ _ _ (fun hh => hc hh.symm)]

theorem contestDataInit_lookup (manifest : CandidateManifest)
    (contests : List (Nat × NistParams)) (cid : Nat) (p : NistParams)
    (hmem : (cid, p) ∈ contests)
    (hcons : ∀ q, (cid, q) ∈ contests →
      q.dropUnqualifiedWriteIn = p.dropUnqualifiedWriteIn) :
    lookupA cid (contestDataInit manifest contests) =
      some ⟨(get_candidates manifest cid p.dropUnqualifiedWriteIn).1,
        (get_candidates manifest cid p.dropUnqualifiedWriteIn).2, []⟩ := by
  obtain ⟨q, hq⟩ := lastParamFor_isSome cid p contests hmem
  have hqp : q.dropUnqualifiedWriteIn = p.dropUnqualifiedWriteIn :=
    hcons q (lastParamFor_mem cid contests q hq)
  unfold contestDataInit
  rw [init_fold_lookup, hq]
  show some (ContestBucket.mk (get_candidates manifest cid q.dropUnqualifiedWriteIn).1
      (get_candidates manifest cid q.dropUnqualifiedWriteIn).2 []) =
    some (ContestBucket.mk (get_candidates manifest cid p.dropUnqualifiedWriteIn).1
      (get_candidates manifest cid p.dropUnqualifiedWriteIn).2 [])
  rw [hqp]

theorem contests_fold_lookup (filename : String) (s : Session) (cid : Nat)
    (cs : List SessionContest) :
    ∀ (data : List (Nat × ContestBucket)) (bkt : ContestBucket),
      lookupA cid data = some bkt →
      lookupA cid (cs.foldl (batchContestStep filename s) data) =
        some ⟨bkt.candidates, bkt.dropped_write_in,
          bkt.ballots ++ (cs.filter (fun c => c.id = cid)).map
            (fun c => nistBallot filename s c bkt.candidates bkt.dropped_write_in)⟩ := by
  induction cs with
  | nil =>
    intro data bkt h
    simpa using h
  | cons c rest ih =>
    intro data bkt h
    rw [List.foldl_cons]
    by_cases hc : c.id = cid
    · have hstep : lookupA cid (batchContestStep filename s data c) =
          some ⟨bkt.candidates, bkt.dropped_write_in,
            bkt.ballots ++ [nistBallot filename s c bkt.candidates bkt.dropped_write_in]⟩ := by
        unfold batchContestStep
        rw [hc, lookupA_updateA_self, h]
        rfl
      rw [ih _ _ hstep]
      simp [hc, List.filter_cons]
    · have hstep : lookupA cid (batchContestStep filename s data c) = some bkt := by
        unfold batchContestStep
        rw [lookupA_updateA_ne _ _ _ _ (fun hh => hc hh.symm), h]
      rw [ih _ _ hstep]
      simp [List.filter_cons, hc]

theorem sessions_fold_lookup (filename : String) (cid : Nat) (ss : List Session) :
    ∀ (data : List (Nat × ContestBucket)) (bkt : ContestBucket),
      lookupA cid data = some bkt →
      lookupA cid (ss.foldl (batchSessionStep filename) data) =
        some ⟨bkt.candidates, bkt.dropped_write_in,
          bkt.ballots ++ ss.flatMap
            (fun s => (s.contests.filter (fun c => c.id = cid)).map
              (fun c => nistBallot filename s c bkt.candidates bkt.dropped_write_in))⟩ := by
  induction ss with
  | nil =>
    intro data bkt h
    simpa using h
  | cons s rest ih =>
    intro data bkt h
    rw [List.foldl_cons]
    have hstep : lookupA cid (batchSessionStep filename data s) =
        some ⟨bkt.candidates, bkt.dropped_write_in,
          bkt.ballots ++ (s.contests.filter (fun c => c.id = cid)).map
            (fun c => nistBallot filename s c bkt.candidates bkt.dropped_write_in)⟩ := by
      unfold batchSessionStep
      exact contests_fold_lookup filename s cid s.contests data bkt h
    rw [ih _ _ hstep]
    simp [List.flatMap_cons, List.append_assoc]

theorem batchRun_lookup (cid : Nat) (cvr_files : List (String × Option CvrExport)) :
    ∀ (data : List (Nat × ContestBucket)) (bkt : ContestBucket),
      lookupA cid data = some bkt →
      lookupA cid (batchRun cvr_files data) =
        some ⟨bkt.candidates, bkt.dropped_write_in,
          bkt.ballots ++ cvr_files.flatMap
            (fun fc => match fc.2 with
              | none => []
              | some cvr =>
                fileBallots fc.1 cvr cid bkt.candidates bkt.dropped_write_in)⟩ := by
  induction cvr_files with
  | nil =>
    intro data bkt h
    simpa [batchRun] using h
  | cons fc rest ih =>
    intro data bkt h
    obtain ⟨fn, ofc⟩ := fc
    cases ofc with
    | none =>
      simp only [batchRun]
      rw [ih data bkt h]
      simp [List.flatMap_cons]
    | some cvr =>
      simp only [batchRun]
      have hstep : lookupA cid (batchFile fn cvr data) =
          some ⟨bkt.candidates, bkt.dropped_write_in,
            bkt.ballots ++ fileBallots fn cvr cid bkt.candidates bkt.dropped_write_in⟩ := by
        unfold batchFile fileBallots
        exact sessions_fold_lookup fn cid cvr.sessions data bkt h
      rw [ih _ _ hstep]
      simp [List.flatMap_cons, List.append_assoc]

theorem readDirBallots_flatMap (cid : Nat) (candidates : CandidateMap Nat)
    (dropped_write_in : Option Nat) (cvr_files : List (String × Option CvrExport)) :
    ∀ bs0, readDirBallots cid candidates dropped_write_in cvr_files bs0 =
      bs0 ++ cvr_files.flatMap
        (fun fc => match fc.2 with
          | none => []
          | some cvr => fileBallots fc.1 cvr cid candidates dropped_write_in) := by
  induction cvr_files with
  | nil => intro bs0; simp [readDirBallots]
  | cons fc rest ih =>
    intro bs0
    obtain ⟨fn, ofc⟩ := fc
    cases ofc with
    | none =>
      simp only [readDirBallots]
      rw [ih]
      simp [List.flatMap_cons]
    | some cvr =>
      simp only [readDirBallots]
      rw [ih]
      simp [List.flatMap_cons, List.append_assoc]

/-- Claim C1, amended: for a NIST election whose contests share one CVR
directory, and for every contest of the batch list whose
`dropUnqualifiedWriteIn` parameter is consistent across all batch entries
carrying the same contest id (in particular whenever contest ids are
distinct), the `Election` the batch reader produces for that contest —
candidate sequence and ballot list, hence also the ballot multiset — is
exactly the `Election` of a per-contest `read_from_directory` over the
same manifest and CVR files.  (Without the consistency proviso the claim
fails: `HashMap::insert` keeps only the last parameters of a duplicated
contest id, see the counterexample.) -/
theorem nist_batch_equivalence (manifest : CandidateManifest)
    (cvr_files : List (String × Option CvrExport))
    (contests : List (Nat × NistParams)) (cid : Nat) (p : NistParams)
    (hmem : (cid, p) ∈ contests)
    (hcons : ∀ q, (cid, q) ∈ contests →
      q.dropUnqualifiedWriteIn = p.dropUnqualifiedWriteIn) :
    lookupA cid (nist_batch_reader manifest cvr_files contests) =
      some (read_from_directory manifest cvr_files cid p.dropUnqualifiedWriteIn) := by
  have hne : contests.isEmpty = false := by
    cases contests with
    | nil => exact absurd hmem (List.not_mem_nil _)
    | cons a b => rfl
  unfold nist_batch_reader
  rw [if_neg (by rw [hne]; exact Bool.false_ne_true)]
  have hinit := contestDataInit_lookup manifest contests cid p hmem hcons
  have hrun := batchRun_lookup cid cvr_files _ _ hinit
  rw [lookupA_map_election, hrun]
  unfold read_from_directory
  simp [readDirBallots_flatMap]

/-- The manifest of the C1 counterexample: contest 5 has the regular
candidate 10 and the (unqualified) write-in 99. -/
def cexManifest : CandidateManifest :=
  ⟨[⟨10, "Alice", 5, CandidateType.Regular⟩, ⟨99, "Write In", 5, CandidateType.WriteIn⟩]⟩

/-- The single CVR file of the C1 counterexample: one session whose only
contest-marks block (contest 5) marks candidate 99 at rank 1. -/
def cexFiles : List (String × Option CvrExport) :=
  [("CvrExport_1.json", some ⟨[⟨"r1", [⟨5, [⟨99, 1, false⟩]⟩]⟩]⟩)]

/-- The C1 counterexample contest list: contest 5 appears twice, once
with `dropUnqualifiedWriteIn=true` and once with `false`. -/
def cexContests : List (Nat × NistParams) :=
  [(5, ⟨".", true⟩), (5, ⟨".", false⟩)]

/-- Counterexample to C1 as stated: with a duplicated contest id whose
entries disagree on `dropUnqualifiedWriteIn`, the batch reader keeps only
the last entry's parameters, so the `Election` it returns for contest 5
differs from the per-contest read for the first entry — the candidate
sequences differ and the (singleton) ballot multisets differ. -/
theorem nist_batch_counterexample :
    (5, NistParams.mk "." true) ∈ cexContests ∧
    lookupA 5 (nist_batch_reader cexManifest cexFiles cexContests) =
      some ⟨[⟨"Alice", CandidateType.Regular⟩, ⟨"Write In", CandidateType.WriteIn⟩],
        [⟨"CvrExport_1.json:r1", [Choice.Vote ⟨1⟩]⟩]⟩ ∧
    read_from_directory cexManifest cexFiles 5 true =
      ⟨[⟨"Alice", CandidateType.Regular⟩],
        [⟨"CvrExport_1.json:r1", [Choice.Undervote]⟩]⟩ ∧
    (⟨[⟨"Alice", CandidateType.Regular⟩, ⟨"Write In", CandidateType.WriteIn⟩],
        [⟨"CvrExport_1.json:r1", [Choice.Vote ⟨1⟩]⟩]⟩ : Election).candidates ≠
      (read_from_directory cexManifest cexFiles 5 true).candidates ∧
    (⟨[⟨"Alice", CandidateType.Regular⟩, ⟨"Write In", CandidateType.WriteIn⟩],
        [⟨"CvrExport_1.json:r1", [Choice.Vote ⟨1⟩]⟩]⟩ : Election).ballots ≠
      (read_from_directory cexManifest cexFiles 5 true).ballots := by
  refine ⟨by decide, by decide, by decide, by decide, by decide⟩

/-- Witness for the amended C1: a single-contest batch (ids trivially
consistent) agrees with the per-contest read. -/
theorem nist_batch_equivalence_witness :
    lookupA 5 (nist_batch_reader cexManifest cexFiles [(5, ⟨".", true⟩)]) =
      some (read_from_directory cexManifest cexFiles 5
        (NistParams.mk "." true).dropUnqualifiedWriteIn) :=
  nist_batch_equivalence cexManifest cexFiles [(5, ⟨".", true⟩)] 5 ⟨".", true⟩
    (List.mem_singleton.mpr rfl)
    (by
      intro q hq
      have h := List.mem_singleton.mp hq
      injection h with h1 h2
      rw [h2])
